import Mathlib

/-!
Shallow embedding of the MIDI-to-serial player (mimi-midi-print.py and
mimi-midi-ser.py): the load_midi extraction pipeline, the stable sort that
builds the timeline, and the _play_notes scheduling loop.  Machine floats
are modelled by rationals; decoded mido messages by an inductive type.
-/

/-- Edge of a note event: ON (pressed) or OFF (released), the state strings
of the Python code. -/
inductive NoteState where
  | on : NoteState
  | off : NoteState
deriving DecidableEq, Repr

/-- One element of the note queue: the tuple (seconds, note, state) appended
by load_midi. -/
structure TimedNote where
  seconds : ℚ
  note : ℕ
  state : NoteState
deriving DecidableEq, Repr

/-- One decoded mido message: its kind, its message-specific fields, and its
delta time in ticks from the previous message of the same track. -/
inductive Msg where
  | noteOn (note vel time : ℕ)
  | noteOff (note vel time : ℕ)
  | setTempo (tempo time : ℕ)
  | other (time : ℕ)
deriving DecidableEq, Repr

/-- Delta time of a message, the msg.time attribute. -/
def Msg.time : Msg → ℕ
  | .noteOn _ _ t => t
  | .noteOff _ _ t => t
  | .setTempo _ t => t
  | .other t => t

/-- A decoded MIDI file as mido.MidiFile exposes it: file-global
ticks_per_beat and a list of tracks, each a list of messages. -/
structure MidiFile where
  ticks_per_beat : ℕ
  tracks : List (List Msg)
deriving DecidableEq, Repr

/-- Conversion of mido.tick2second: tick * (tempo * 1e-6 / ticks_per_beat),
over exact rationals. -/
def tick2second (tick ticksPerBeat tempo : ℕ) : ℚ :=
  (tick : ℚ) * ((tempo : ℚ) / 1000000) / (ticksPerBeat : ℚ)

/-- Classification of an in-range note message, line 81 of the source:
state is ON exactly when the kind is note_on and the velocity is
strictly positive, otherwise OFF. -/
def classify (isNoteOn : Bool) (vel : ℕ) : NoteState :=
  if isNoteOn = true ∧ 0 < vel then NoteState.on else NoteState.off

/-- Comparison used by the sort at line 90: the key is the first tuple
component, the time in seconds. -/
def timeLE (a b : TimedNote) : Prop := a.seconds ≤ b.seconds

instance : DecidableRel timeLE :=
  fun a b => inferInstanceAs (Decidable (a.seconds ≤ b.seconds))

instance : IsTotal TimedNote timeLE := ⟨fun a b => le_total a.seconds b.seconds⟩

instance : IsTrans TimedNote timeLE := ⟨fun _ _ _ h h' => le_trans h h'⟩

/-- Stable sort of the note queue by time in seconds, modelling Python
sorted with key x[0] (any stable sort by the same key computes the same
list). -/
def sortTimeline (l : List TimedNote) : List TimedNote :=
  List.insertionSort timeLE l

/-- Mutable state of one load_midi call that survives across messages:
the note queue held in self, and the loop-local tempo and counters. -/
structure ExtractState where
  queue : List TimedNote
  tempo : ℕ
  totalNotes : ℕ
  validNotes : ℕ
deriving DecidableEq, Repr

/-- Processing of one message of a track, lines 59-87 of the source.
The track time is advanced by the delta first.  A set_tempo message
assigns the tempo and then prints 60000000/tempo, which raises
ZeroDivisionError when the tempo is 0 (the Except.error branch carries the
state as the exception leaves it).  A note message increments the total
counter; if the pitch lies in 24..108 the conversion tick2second runs
(raising ZeroDivisionError when ticks_per_beat is 0), the edge is
classified, the tuple is appended and the valid counter increments. -/
def processMsg (tpb tt : ℕ) (st : ExtractState) (m : Msg) :
    Except ExtractState (ℕ × ExtractState) :=
  match m with
  | .setTempo v d =>
      if v = 0 then Except.error { st with tempo := v }
      else Except.ok (tt + d, { st with tempo := v })
  | .noteOn note vel d =>
      if 24 ≤ note ∧ note ≤ 108 then
        if tpb = 0 then Except.error { st with totalNotes := st.totalNotes + 1 }
        else Except.ok (tt + d,
          { st with
              queue := st.queue ++
                [⟨tick2second (tt + d) tpb st.tempo, note, classify true vel⟩],
              totalNotes := st.totalNotes + 1,
              validNotes := st.validNotes + 1 })
      else Except.ok (tt + d, { st with totalNotes := st.totalNotes + 1 })
  | .noteOff note vel d =>
      if 24 ≤ note ∧ note ≤ 108 then
        if tpb = 0 then Except.error { st with totalNotes := st.totalNotes + 1 }
        else Except.ok (tt + d,
          { st with
              queue := st.queue ++
                [⟨tick2second (tt + d) tpb st.tempo, note, classify false vel⟩],
              totalNotes := st.totalNotes + 1,
              validNotes := st.validNotes + 1 })
      else Except.ok (tt + d, { st with totalNotes := st.totalNotes + 1 })
  | .other d => Except.ok (tt + d, st)

/-- Folding step over the messages of one track: once an exception has been
raised the remaining messages are not processed. -/
def trackStep (tpb : ℕ) (acc : Except ExtractState (ℕ × ExtractState))
    (m : Msg) : Except ExtractState (ℕ × ExtractState) :=
  match acc with
  | .error st => Except.error st
  | .ok (tt, st) => processMsg tpb tt st m

/-- Processing of one whole track, lines 57-87: track_time restarts at 0,
the rest of the state is carried in. -/
def processTrack (tpb : ℕ) (st : ExtractState) (tr : List Msg) :
    Except ExtractState ExtractState :=
  match tr.foldl (trackStep tpb) (Except.ok (0, st)) with
  | .ok (_, st') => Except.ok st'
  | .error st' => Except.error st'

/-- Folding step over the tracks: an exception aborts the remaining
tracks. -/
def tracksStep (tpb : ℕ) (acc : Except ExtractState ExtractState)
    (tr : List Msg) : Except ExtractState ExtractState :=
  match acc with
  | .error st => Except.error st
  | .ok st => processTrack tpb st tr

/-- Processing of all tracks in file order, lines 55-87.  Note that only
track_time restarts per track; the tempo and the counters thread through. -/
def processTracks (tpb : ℕ) (st : ExtractState) (ts : List (List Msg)) :
    Except ExtractState ExtractState :=
  ts.foldl (tracksStep tpb) (Except.ok st)

/-- The body of load_midi on an already decoded file, lines 44-100 of
mimi-midi-print.py: tempo starts at 500000 and the counters at 0 once per
call, the queue keeps whatever self.note_queue already held, all tracks are
processed, and on success the queue is re-bound to its stable sort by time
while the method returns True.  An exception is caught, load_midi returns
False, and self.note_queue keeps the state the exception left. -/
def load_midi (q : List TimedNote) (mid : MidiFile) : Bool × List TimedNote :=
  match processTracks mid.ticks_per_beat ⟨q, 500000, 0, 0⟩ mid.tracks with
  | .ok st => (true, sortTimeline st.queue)
  | .error st => (false, st.queue)

/-- The load entry point seen by the caller: a missing file or a mido
decoding failure (modelled as the none case) returns False before any
message is processed, leaving self.note_queue untouched. -/
def load_midi_file (q : List TimedNote) : Option MidiFile → Bool × List TimedNote
  | none => (false, q)
  | some mid => load_midi q mid

namespace Ser

/-- Processing of one message in mimi-midi-ser.py, lines 118-146, identical
to the console variant. -/
def processMsg (tpb tt : ℕ) (st : ExtractState) (m : Msg) :
    Except ExtractState (ℕ × ExtractState) :=
  match m with
  | .setTempo v d =>
      if v = 0 then Except.error { st with tempo := v }
      else Except.ok (tt + d, { st with tempo := v })
  | .noteOn note vel d =>
      if 24 ≤ note ∧ note ≤ 108 then
        if tpb = 0 then Except.error { st with totalNotes := st.totalNotes + 1 }
        else Except.ok (tt + d,
          { st with
              queue := st.queue ++
                [⟨tick2second (tt + d) tpb st.tempo, note, classify true vel⟩],
              totalNotes := st.totalNotes + 1,
              validNotes := st.validNotes + 1 })
      else Except.ok (tt + d, { st with totalNotes := st.totalNotes + 1 })
  | .noteOff note vel d =>
      if 24 ≤ note ∧ note ≤ 108 then
        if tpb = 0 then Except.error { st with totalNotes := st.totalNotes + 1 }
        else Except.ok (tt + d,
          { st with
              queue := st.queue ++
                [⟨tick2second (tt + d) tpb st.tempo, note, classify false vel⟩],
              totalNotes := st.totalNotes + 1,
              validNotes := st.validNotes + 1 })
      else Except.ok (tt + d, { st with totalNotes := st.totalNotes + 1 })
  | .other d => Except.ok (tt + d, st)

/-- Folding step over one track of the serial variant. -/
def trackStep (tpb : ℕ) (acc : Except ExtractState (ℕ × ExtractState))
    (m : Msg) : Except ExtractState (ℕ × ExtractState) :=
  match acc with
  | .error st => Except.error st
  | .ok (tt, st) => Ser.processMsg tpb tt st m

/-- Processing of one track of the serial variant, lines 116-146. -/
def processTrack (tpb : ℕ) (st : ExtractState) (tr : List Msg) :
    Except ExtractState ExtractState :=
  match tr.foldl (Ser.trackStep tpb) (Except.ok (0, st)) with
  | .ok (_, st') => Except.ok st'
  | .error st' => Except.error st'

/-- Folding step over the tracks of the serial variant. -/
def tracksStep (tpb : ℕ) (acc : Except ExtractState ExtractState)
    (tr : List Msg) : Except ExtractState ExtractState :=
  match acc with
  | .error st => Except.error st
  | .ok st => Ser.processTrack tpb st tr

/-- Processing of all tracks of the serial variant, lines 114-146. -/
def processTracks (tpb : ℕ) (st : ExtractState) (ts : List (List Msg)) :
    Except ExtractState ExtractState :=
  ts.foldl (Ser.tracksStep tpb) (Except.ok st)

/-- The body of load_midi of mimi-midi-ser.py, lines 101-159. -/
def load_midi (q : List TimedNote) (mid : MidiFile) : Bool × List TimedNote :=
  match Ser.processTracks mid.ticks_per_beat ⟨q, 500000, 0, 0⟩ mid.tracks with
  | .ok st => (true, sortTimeline st.queue)
  | .error st => (false, st.queue)

end Ser

/-- Observable action of the playback thread: a call to time.sleep with a
duration, or a call to _send_note. -/
inductive PlayAction where
  | sleep (d : ℚ)
  | emit (note : ℕ) (state : NoteState)
deriving DecidableEq, Repr

/-- State of the playback loop of _play_notes: the shared playing flag, the
remaining note queue, and the loop-local last_time variable. -/
structure PlayerState where
  playing : Bool
  queue : List TimedNote
  lastTime : ℚ
deriving DecidableEq, Repr

/-- Condition of the while loop at line 22: self.playing or self.note_queue,
where a deque is truthy exactly when it is non-empty. -/
def loopCond (st : PlayerState) : Bool :=
  st.playing || !st.queue.isEmpty

/-- One iteration of the loop body, lines 23-34: with a non-empty queue the
front event is popped, delay = timestamp - last_time is computed, the thread
sleeps only when delay > 0, last_time becomes the timestamp and the note is
sent; with an empty queue the thread sleeps 1 millisecond. -/
def playStep (st : PlayerState) : List PlayAction × PlayerState :=
  match st.queue with
  | [] => ([PlayAction.sleep (1 / 1000)], st)
  | e :: rest =>
      ((if 0 < e.seconds - st.lastTime then [PlayAction.sleep (e.seconds - st.lastTime)]
        else []) ++ [PlayAction.emit e.note e.state],
       ⟨st.playing, rest, e.seconds⟩)

/-- Fuelled run of the while loop: while the loop condition holds, iterate
the body collecting the emitted actions. -/
def playRun : ℕ → PlayerState → List PlayAction × PlayerState
  | 0, st => ([], st)
  | n + 1, st =>
      if loopCond st then
        ((playStep st).1 ++ (playRun n (playStep st).2).1, (playRun n (playStep st).2).2)
      else ([], st)

/-- Projection of a trace to the notes actually sent to the sink. -/
def emitsOf (l : List PlayAction) : List (ℕ × NoteState) :=
  l.filterMap fun a =>
    match a with
    | .emit n s => some (n, s)
    | _ => none

/-- State transformer that puts q in front of the queue of an extractor
state, leaving everything else unchanged. -/
def prependSt (q : List TimedNote) (st : ExtractState) : ExtractState :=
  { st with queue := q ++ st.queue }

/-- Lift of prependSt to the result of one message step. -/
def prependRes (q : List TimedNote) :
    Except ExtractState (ℕ × ExtractState) → Except ExtractState (ℕ × ExtractState)
  | .ok (tt, st) => .ok (tt, prependSt q st)
  | .error st => .error (prependSt q st)

/-- Lift of prependSt to the result of a track-level step. -/
def prependResT (q : List TimedNote) :
    Except ExtractState ExtractState → Except ExtractState ExtractState
  | .ok st => .ok (prependSt q st)
  | .error st => .error (prependSt q st)

/-- Note queue carried by the result of one message step, in both the
normal and the exceptional branch. -/
def resQueue : Except ExtractState (ℕ × ExtractState) → List TimedNote
  | .ok (_, st) => st.queue
  | .error st => st.queue

/-- Note queue carried by a track-level result, in both branches. -/
def exQueue : Except ExtractState ExtractState → List TimedNote
  | .ok st => st.queue
  | .error st => st.queue

/-- Two-track file: the first track only sets the tempo to 1000000, the
second holds a note-on 480 ticks in. -/
def c1mid : MidiFile := ⟨480, [[.setTempo 1000000 0], [.noteOn 60 64 480]]⟩

/-- The second track of c1mid on its own. -/
def c1solo : MidiFile := ⟨480, [[.noteOn 60 64 480]]⟩

/-- Scenario 1 of the specification: ticks_per_beat 480, default tempo, a
note-on at tick 0 and a note-off at tick 480, both for pitch 60. -/
def s1mid : MidiFile := ⟨480, [[.noteOn 60 64 0, .noteOff 60 64 480]]⟩

/-- Scenario 2 of the specification: a note-on with velocity 0 at tick 0
for pitch 60. -/
def s2mid : MidiFile := ⟨480, [[.noteOn 60 0 0]]⟩

/-- Scenario 3 of the specification: a tempo change to 1000000 followed by
a note 480 ticks later, in one track. -/
def s3mid : MidiFile := ⟨480, [[.setTempo 1000000 0, .noteOn 60 64 480]]⟩

/-- Boundary file: simultaneous note-ons at pitches 23, 24, 108 and 109. -/
def boundMid : MidiFile := ⟨480, [[.noteOn 23 64 0, .noteOn 24 64 0, .noteOn 108 64 0, .noteOn 109 64 0]]⟩

/-- One-track one-note file used to exercise repeated loading. -/
def dupMid : MidiFile := ⟨480, [[.noteOn 60 64 0]]⟩

/-- File whose track appends one note and then hits a set_tempo of 0,
which makes the BPM print raise ZeroDivisionError. -/
def failMid : MidiFile := ⟨480, [[.noteOn 60 64 0, .setTempo 0 0]]⟩

/-- Two simultaneous events with distinct pitches at time 0. -/
def c2mid : MidiFile := ⟨480, [[.noteOn 60 64 0, .noteOn 62 0 0]]⟩

/-- Filtering the insertion of a into l at a fixed time key t keeps a first
exactly when a has key t; elements skipped over by the insertion have a
strictly smaller key, hence a different one. -/
theorem filter_seconds_orderedInsert (t : ℚ) (a : TimedNote) (l : List TimedNote) :
    (List.orderedInsert timeLE a l).filter (fun e => decide (e.seconds = t)) =
      if a.seconds = t then a :: l.filter (fun e => decide (e.seconds = t))
      else l.filter (fun e => decide (e.seconds = t)) := by
  induction l with
  | nil =>
      by_cases ha : a.seconds = t <;>
        simp [List.orderedInsert, List.filter_cons, ha]
  | cons b l ih =>
      rw [List.orderedInsert]
      by_cases hab : timeLE a b
      · rw [if_pos hab]
        by_cases ha : a.seconds = t <;> simp [List.filter_cons, ha]
      · rw [if_neg hab]
        have hba : b.seconds < a.seconds := not_le.mp hab
        by_cases ha : a.seconds = t
        · have hb : ¬ b.seconds = t := by
            rw [← ha]
            exact ne_of_lt hba
          simp [List.filter_cons, hb, ih, ha]
        · by_cases hb : b.seconds = t <;> simp [List.filter_cons, hb, ih, ha]

/-- Stability of the timeline sort: restricted to any fixed time key, the
sorted queue lists the events in their original append order. -/
theorem filter_seconds_sortTimeline (t : ℚ) (l : List TimedNote) :
    (sortTimeline l).filter (fun e => decide (e.seconds = t)) =
      l.filter (fun e => decide (e.seconds = t)) := by
  induction l with
  | nil => rfl
  | cons a l ih =>
      show (List.orderedInsert timeLE a (List.insertionSort timeLE l)).filter _ = _
      rw [filter_seconds_orderedInsert]
      rw [show List.insertionSort timeLE l = sortTimeline l from rfl]
      by_cases ha : a.seconds = t <;> simp [List.filter_cons, ha, ih]

/-- Every element appended by processMsg has the shape of an in-range
conversion; the queue of the result, in both branches, therefore satisfies
any predicate that holds of the incoming queue and of every such
conversion. -/
theorem processMsg_queue_inv (P : TimedNote → Prop)
    (hnew : ∀ (tick tpb tempo note vel : ℕ) (b : Bool), 24 ≤ note → note ≤ 108 →
      P ⟨tick2second tick tpb tempo, note, classify b vel⟩)
    (tpb tt : ℕ) (st : ExtractState) (m : Msg)
    (hq : ∀ e ∈ st.queue, P e) :
    ∀ e ∈ resQueue (processMsg tpb tt st m), P e := by
  cases m with
  | setTempo v d =>
      by_cases hv : v = 0 <;> simp [processMsg, hv, resQueue] <;> exact hq
  | other d => simpa [processMsg, resQueue] using hq
  | noteOn note vel d =>
      by_cases hr : 24 ≤ note ∧ note ≤ 108
      · by_cases htpb : tpb = 0
        · simpa [processMsg, hr, htpb, resQueue] using hq
        · intro e he
          simp [processMsg, hr, htpb, resQueue] at he
          rcases he with he | he
          · exact hq e he
          · exact he ▸ hnew (tt + d) tpb st.tempo note vel true hr.1 hr.2
      · simpa [processMsg, hr, resQueue] using hq
  | noteOff note vel d =>
      by_cases hr : 24 ≤ note ∧ note ≤ 108
      · by_cases htpb : tpb = 0
        · simpa [processMsg, hr, htpb, resQueue] using hq
        · intro e he
          simp [processMsg, hr, htpb, resQueue] at he
          rcases he with he | he
          · exact hq e he
          · exact he ▸ hnew (tt + d) tpb st.tempo note vel false hr.1 hr.2
      · simpa [processMsg, hr, resQueue] using hq

/-- Lift of the per-message queue invariant through the fold over one
track's messages. -/
theorem foldl_trackStep_queue_inv (P : TimedNote → Prop)
    (hnew : ∀ (tick tpb tempo note vel : ℕ) (b : Bool), 24 ≤ note → note ≤ 108 →
      P ⟨tick2second tick tpb tempo, note, classify b vel⟩)
    (tpb : ℕ) :
    ∀ (tr : List Msg) (acc : Except ExtractState (ℕ × ExtractState)),
      (∀ e ∈ resQueue acc, P e) →
      ∀ e ∈ resQueue (tr.foldl (trackStep tpb) acc), P e := by
  intro tr
  induction tr with
  | nil => intro acc h; simpa using h
  | cons m tr ih =>
      intro acc h
      rw [List.foldl_cons]
      apply ih
      cases acc with
      | error st => simpa [trackStep, resQueue] using h
      | ok p =>
          obtain ⟨tt, st⟩ := p
          exact processMsg_queue_inv P hnew tpb tt st m (by simpa [resQueue] using h)

/-- The queue of a track-level result is the queue of the underlying
message fold. -/
theorem exQueue_processTrack (tpb : ℕ) (st : ExtractState) (tr : List Msg) :
    exQueue (processTrack tpb st tr) =
      resQueue (tr.foldl (trackStep tpb) (Except.ok (0, st))) := by
  unfold processTrack
  cases h : tr.foldl (trackStep tpb) (Except.ok (0, st)) with
  | error st' => simp [h, exQueue, resQueue]
  | ok p => obtain ⟨tt, st'⟩ := p; simp [h, exQueue, resQueue]

/-- Lift of the queue invariant through the fold over all tracks. -/
theorem foldl_tracksStep_queue_inv (P : TimedNote → Prop)
    (hnew : ∀ (tick tpb tempo note vel : ℕ) (b : Bool), 24 ≤ note → note ≤ 108 →
      P ⟨tick2second tick tpb tempo, note, classify b vel⟩)
    (tpb : ℕ) :
    ∀ (ts : List (List Msg)) (acc : Except ExtractState ExtractState),
      (∀ e ∈ exQueue acc, P e) →
      ∀ e ∈ exQueue (ts.foldl (tracksStep tpb) acc), P e := by
  intro ts
  induction ts with
  | nil => intro acc h; simpa using h
  | cons tr ts ih =>
      intro acc h
      rw [List.foldl_cons]
      apply ih
      cases acc with
      | error st => simpa [tracksStep, exQueue] using h
      | ok st =>
          rw [tracksStep, exQueue_processTrack]
          exact foldl_trackStep_queue_inv P hnew tpb tr (Except.ok (0, st))
            (by simpa [resQueue, exQueue] using h)

/-- Every note on the timeline returned by load_midi from an empty queue,
in the success branch and in the failure branch alike, satisfies any
predicate that holds of every in-range conversion. -/
theorem load_midi_queue_inv (P : TimedNote → Prop)
    (hnew : ∀ (tick tpb tempo note vel : ℕ) (b : Bool), 24 ≤ note → note ≤ 108 →
      P ⟨tick2second tick tpb tempo, note, classify b vel⟩)
    (mid : MidiFile) :
    ∀ e ∈ (load_midi [] mid).2, P e := by
  have base : ∀ e ∈ exQueue (processTracks mid.ticks_per_beat ⟨[], 500000, 0, 0⟩ mid.tracks), P e :=
    foldl_tracksStep_queue_inv P hnew mid.ticks_per_beat mid.tracks
      (Except.ok ⟨[], 500000, 0, 0⟩) (by simp [exQueue])
  unfold load_midi
  cases h : processTracks mid.ticks_per_beat ⟨[], 500000, 0, 0⟩ mid.tracks with
  | error st =>
      rw [h] at base
      simpa [exQueue] using base
  | ok st =>
      rw [h] at base
      intro e he
      simp only at he
      rw [show sortTimeline st.queue = List.insertionSort timeLE st.queue from rfl] at he
      exact base e (by simpa [exQueue] using (List.mem_insertionSort timeLE).mp he)

/-- Appends performed by processMsg do not look at the queue already held:
running it on a queue extended on the left by q prepends q to both result
branches. -/
theorem processMsg_prepend (q : List TimedNote) (tpb tt : ℕ) (st : ExtractState) (m : Msg) :
    processMsg tpb tt (prependSt q st) m = prependRes q (processMsg tpb tt st m) := by
  cases m with
  | setTempo v d =>
      by_cases hv : v = 0 <;> simp [processMsg, hv, prependSt, prependRes]
  | other d => simp [processMsg, prependSt, prependRes]
  | noteOn note vel d =>
      by_cases hr : 24 ≤ note ∧ note ≤ 108
      · by_cases htpb : tpb = 0 <;>
          simp [processMsg, hr, htpb, prependSt, prependRes, List.append_assoc]
      · simp [processMsg, hr, prependSt, prependRes]
  | noteOff note vel d =>
      by_cases hr : 24 ≤ note ∧ note ≤ 108
      · by_cases htpb : tpb = 0 <;>
          simp [processMsg, hr, htpb, prependSt, prependRes, List.append_assoc]
      · simp [processMsg, hr, prependSt, prependRes]

/-- Lift of processMsg_prepend to the folding step. -/
theorem trackStep_prepend (q : List TimedNote) (tpb : ℕ)
    (acc : Except ExtractState (ℕ × ExtractState)) (m : Msg) :
    trackStep tpb (prependRes q acc) m = prependRes q (trackStep tpb acc m) := by
  cases acc with
  | error st => simp [trackStep, prependRes]
  | ok p =>
      obtain ⟨tt, st⟩ := p
      simp [trackStep, prependRes, processMsg_prepend]

/-- Lift of processMsg_prepend through the fold over one track. -/
theorem foldl_trackStep_prepend (q : List TimedNote) (tpb : ℕ) :
    ∀ (tr : List Msg) (acc : Except ExtractState (ℕ × ExtractState)),
      tr.foldl (trackStep tpb) (prependRes q acc) =
        prependRes q (tr.foldl (trackStep tpb) acc) := by
  intro tr
  induction tr with
  | nil => intro acc; rfl
  | cons m tr ih =>
      intro acc
      rw [List.foldl_cons, List.foldl_cons, trackStep_prepend, ih]

/-- Lift of the prepend law to a whole track. -/
theorem processTrack_prepend (q : List TimedNote) (tpb : ℕ) (st : ExtractState) (tr : List Msg) :
    processTrack tpb (prependSt q st) tr = prependResT q (processTrack tpb st tr) := by
  unfold processTrack
  rw [show (Except.ok (0, prependSt q st) : Except ExtractState (ℕ × ExtractState)) =
        prependRes q (Except.ok (0, st)) from rfl,
    foldl_trackStep_prepend]
  cases h : tr.foldl (trackStep tpb) (Except.ok (0, st)) with
  | error st' => simp [prependRes, prependResT]
  | ok p => obtain ⟨tt, st'⟩ := p; simp [prependRes, prependResT]

/-- Lift of the prepend law to the fold over all tracks. -/
theorem foldl_tracksStep_prepend (q : List TimedNote) (tpb : ℕ) :
    ∀ (ts : List (List Msg)) (acc : Except ExtractState ExtractState),
      ts.foldl (tracksStep tpb) (prependResT q acc) =
        prependResT q (ts.foldl (tracksStep tpb) acc) := by
  intro ts
  induction ts with
  | nil => intro acc; rfl
  | cons tr ts ih =>
      intro acc
      rw [List.foldl_cons, List.foldl_cons]
      have hstep : tracksStep tpb (prependResT q acc) tr =
          prependResT q (tracksStep tpb acc tr) := by
        cases acc with
        | error st => simp [tracksStep, prependResT]
        | ok st => simp [tracksStep, prependResT, processTrack_prepend]
      rw [hstep, ih]

/-- Running the whole extraction on a queue extended on the left by q
prepends q to the final queue and changes nothing else. -/
theorem processTracks_prepend (q : List TimedNote) (tpb : ℕ) (st : ExtractState)
    (ts : List (List Msg)) :
    processTracks tpb (prependSt q st) ts = prependResT q (processTracks tpb st ts) := by
  unfold processTracks
  rw [show (Except.ok (prependSt q st) : Except ExtractState ExtractState) =
        prependResT q (Except.ok st) from rfl,
    foldl_tracksStep_prepend]

/-- An exception raised before the fold over the tracks short-circuits the
whole fold. -/
theorem foldl_tracksStep_error (tpb : ℕ) :
    ∀ (ts : List (List Msg)) (st : ExtractState),
      ts.foldl (tracksStep tpb) (Except.error st) = Except.error st := by
  intro ts
  induction ts with
  | nil => intro st; rfl
  | cons tr ts ih => intro st; rw [List.foldl_cons]; exact ih st

/-- C1, counterexample.  The claim says a set-tempo in one track never
alters the conversion of another track's events.  In c1mid the first track
only sets the tempo to 1000000 and the second track's note at tick 480
converts to 1 second; with the first track removed (c1solo) the same note
converts to 1/2 second under the default tempo 500000 its own track starts
with.  The foreign set-tempo therefore changed the conversion. -/
theorem c1_tempo_not_track_scoped_cex :
    (load_midi [] c1mid).2 = [⟨1, 60, NoteState.on⟩] ∧
    (load_midi [] c1solo).2 = [⟨1/2, 60, NoteState.on⟩] ∧
    (1 : ℚ) ≠ 1/2 := by
  refine ⟨?_, ?_, by norm_num⟩ <;>
    norm_num [c1mid, c1solo, load_midi, processTracks, tracksStep, processTrack, trackStep,
      processMsg, tick2second, classify, sortTimeline, List.insertionSort, List.orderedInsert,
      timeLE]

/-- C1, amended.  Tempo state is not track-scoped: extraction threads the
full extractor state, the tempo included, from each track into the next, so
a tempo change in an earlier-processed track governs the conversion of
subsequent tracks until the next set-tempo; only the first track starts
from the default 500000 installed once per load. -/
theorem c1_state_threads_across_tracks :
    ∀ (tpb : ℕ) (st : ExtractState) (ts₁ ts₂ : List (List Msg)),
      processTracks tpb st (ts₁ ++ ts₂) =
        match processTracks tpb st ts₁ with
        | .ok st' => processTracks tpb st' ts₂
        | .error st' => Except.error st' := by
  intro tpb st ts₁ ts₂
  unfold processTracks
  rw [List.foldl_append]
  cases h : ts₁.foldl (tracksStep tpb) (Except.ok st) with
  | ok st' => rfl
  | error st' => exact foldl_tracksStep_error tpb ts₂ st'

/-- C2, confirmed.  On every successful load the produced timeline is
sorted non-decreasingly in seconds, it is stable (restricted to any fixed
timestamp it equals the extraction queue in append order), and it is a
permutation of the multiset of in-range note events gathered from all
tracks. -/
theorem c2_timeline_sorted_stable_perm :
    ∀ (mid : MidiFile) (st : ExtractState),
      processTracks mid.ticks_per_beat ⟨[], 500000, 0, 0⟩ mid.tracks = Except.ok st →
      List.Sorted timeLE (load_midi [] mid).2 ∧
      (∀ t : ℚ, (load_midi [] mid).2.filter (fun e => decide (e.seconds = t)) =
        st.queue.filter (fun e => decide (e.seconds = t))) ∧
      (load_midi [] mid).2.Perm st.queue := by
  intro mid st h
  have hl : (load_midi [] mid).2 = sortTimeline st.queue := by
    simp [load_midi, h]
  rw [hl]
  exact ⟨List.sorted_insertionSort timeLE st.queue,
    fun t => filter_seconds_sortTimeline t st.queue,
    List.perm_insertionSort timeLE st.queue⟩

/-- C2, witness at the two-event file c2mid, both events at time 0. -/
theorem c2_sorted_stable_perm_witness :
    List.Sorted timeLE (load_midi [] c2mid).2 ∧
    (load_midi [] c2mid).2.filter (fun e => decide (e.seconds = 0)) =
      ([⟨0, 60, NoteState.on⟩, ⟨0, 62, NoteState.off⟩] : List TimedNote).filter
        (fun e => decide (e.seconds = 0)) ∧
    (load_midi [] c2mid).2.Perm [⟨0, 60, NoteState.on⟩, ⟨0, 62, NoteState.off⟩] := by
  have h : processTracks c2mid.ticks_per_beat ⟨[], 500000, 0, 0⟩ c2mid.tracks =
      Except.ok ⟨[⟨0, 60, NoteState.on⟩, ⟨0, 62, NoteState.off⟩], 500000, 2, 2⟩ := by
    norm_num [c2mid, processTracks, tracksStep, processTrack, trackStep, processMsg,
      tick2second, classify]
  exact ⟨(c2_timeline_sorted_stable_perm c2mid _ h).1,
    (c2_timeline_sorted_stable_perm c2mid _ h).2.1 0,
    (c2_timeline_sorted_stable_perm c2mid _ h).2.2⟩

/-- C10, confirmed.  The extraction pipelines of the console variant and of
the serial variant are the same function: for every initial queue and every
decoded file both load_midi bodies compute the same flag and the same
timeline.  The two programs differ only in what _send_note does with a
dispatched event. -/
theorem c10_print_ser_extraction_equivalent :
    ∀ (q : List TimedNote) (mid : MidiFile), load_midi q mid = Ser.load_midi q mid :=
  fun _ _ => rfl

/-- C3, confirmed.  Every TimedNote that reaches the timeline of a load
started from an empty queue has pitch between 24 and 108 inclusive and a
non-negative time; at the boundary file the pitches 24 and 108 are kept
while 23 and 109 only increment the total counter (4 seen, 2 valid). -/
theorem c3_pitch_range_and_nonneg_time :
    (∀ (mid : MidiFile), ∀ e ∈ (load_midi [] mid).2,
        24 ≤ e.note ∧ e.note ≤ 108 ∧ 0 ≤ e.seconds) ∧
    processTracks boundMid.ticks_per_beat ⟨[], 500000, 0, 0⟩ boundMid.tracks =
      Except.ok ⟨[⟨0, 24, NoteState.on⟩, ⟨0, 108, NoteState.on⟩], 500000, 4, 2⟩ ∧
    (load_midi [] boundMid).2 = [⟨0, 24, NoteState.on⟩, ⟨0, 108, NoteState.on⟩] := by
  refine ⟨?_, ?_, ?_⟩
  · intro mid
    apply load_midi_queue_inv
    intro tick tpb tempo note vel b h1 h2
    refine ⟨h1, h2, ?_⟩
    unfold tick2second
    positivity
  · norm_num [boundMid, processTracks, tracksStep, processTrack, trackStep, processMsg,
      tick2second, classify]
  · norm_num [boundMid, load_midi, processTracks, tracksStep, processTrack, trackStep,
      processMsg, tick2second, classify, sortTimeline, List.insertionSort, List.orderedInsert,
      timeLE]

/-- C3, witness: the boundary note of pitch 24 is on the timeline and the
invariant holds of it. -/
theorem c3_pitch_range_witness :
    (⟨0, 24, NoteState.on⟩ : TimedNote) ∈ (load_midi [] boundMid).2 ∧
    (24 ≤ (⟨(0 : ℚ), 24, NoteState.on⟩ : TimedNote).note ∧
      (⟨(0 : ℚ), 24, NoteState.on⟩ : TimedNote).note ≤ 108 ∧
      0 ≤ (⟨(0 : ℚ), 24, NoteState.on⟩ : TimedNote).seconds) := by
  have hm : (⟨0, 24, NoteState.on⟩ : TimedNote) ∈ (load_midi [] boundMid).2 := by
    norm_num [boundMid, load_midi, processTracks, tracksStep, processTrack, trackStep,
      processMsg, tick2second, classify, sortTimeline, List.insertionSort, List.orderedInsert,
      timeLE]
  exact ⟨hm, c3_pitch_range_and_nonneg_time.1 boundMid _ hm⟩

/-- C4, confirmed.  The edge of an in-range note message is On exactly when
the message kind is note-on and the velocity is strictly positive; a
note-on with velocity 0 classifies as Off, and scenario 2 (note-on,
velocity 0, tick 0, pitch 60) lands on the timeline as an Off event. -/
theorem c4_edge_classification :
    (∀ (isOn : Bool) (vel : ℕ), classify isOn vel = NoteState.on ↔ isOn = true ∧ 0 < vel) ∧
    classify true 0 = NoteState.off ∧
    (load_midi [] s2mid).2 = [⟨0, 60, NoteState.off⟩] := by
  refine ⟨?_, by simp [classify], ?_⟩
  · intro isOn vel
    unfold classify
    split_ifs with h <;> simp [h]
  · norm_num [s2mid, load_midi, processTracks, tracksStep, processTrack, trackStep,
      processMsg, tick2second, classify, sortTimeline, List.insertionSort, List.orderedInsert,
      timeLE]

/-- C5, counterexample.  Scenario 1 as claimed puts the note-off of tick
480 at 1.0 second, but tempo 500000 means half a second per beat: the code
computes 480 * (500000/1000000) / 480 = 1/2, so the produced timeline ends
with an Off at 0.5 second and differs from the claimed one. -/
theorem c5_scenario1_cex :
    (load_midi [] s1mid).2 = [⟨0, 60, NoteState.on⟩, ⟨1/2, 60, NoteState.off⟩] ∧
    (load_midi [] s1mid).2 ≠ [⟨0, 60, NoteState.on⟩, ⟨1, 60, NoteState.off⟩] := by
  have h : (load_midi [] s1mid).2 = [⟨0, 60, NoteState.on⟩, ⟨1/2, 60, NoteState.off⟩] := by
    norm_num [s1mid, load_midi, processTracks, tracksStep, processTrack, trackStep,
      processMsg, tick2second, classify, sortTimeline, List.insertionSort, List.orderedInsert,
      timeLE]
  refine ⟨h, ?_⟩
  rw [h]
  intro hc
  simp only [List.cons.injEq, TimedNote.mk.injEq] at hc
  exact absurd hc.2.1.1 (by norm_num)

/-- C5, amended.  The conversion of every in-range note message multiplies
the cumulative track ticks by the active tempo over 1000000 and divides by
ticks-per-beat; under scenario 1 the timeline is therefore
[(0.0,60,On), (0.5,60,Off)] (not 1.0 for the off edge), and scenario 3
(tempo change to 1000000 before a note 480 ticks later) gives that note
time 1.0 second, confirming use of the tempo active at that point. -/
theorem c5_conversion_formula_amended :
    (∀ (tpb tt : ℕ) (st : ExtractState) (note vel d : ℕ),
        24 ≤ note → note ≤ 108 → tpb ≠ 0 →
        processMsg tpb tt st (Msg.noteOn note vel d) =
          Except.ok (tt + d,
            { st with
                queue := st.queue ++
                  [⟨((tt + d : ℕ) : ℚ) * ((st.tempo : ℚ) / 1000000) / (tpb : ℚ), note,
                    classify true vel⟩],
                totalNotes := st.totalNotes + 1,
                validNotes := st.validNotes + 1 })) ∧
    (∀ (tpb tt : ℕ) (st : ExtractState) (note vel d : ℕ),
        24 ≤ note → note ≤ 108 → tpb ≠ 0 →
        processMsg tpb tt st (Msg.noteOff note vel d) =
          Except.ok (tt + d,
            { st with
                queue := st.queue ++
                  [⟨((tt + d : ℕ) : ℚ) * ((st.tempo : ℚ) / 1000000) / (tpb : ℚ), note,
                    classify false vel⟩],
                totalNotes := st.totalNotes + 1,
                validNotes := st.validNotes + 1 })) ∧
    load_midi [] s1mid = (true, [⟨0, 60, NoteState.on⟩, ⟨1/2, 60, NoteState.off⟩]) ∧
    (load_midi [] s3mid).2 = [⟨1, 60, NoteState.on⟩] := by
  refine ⟨?_, ?_, ?_, ?_⟩
  · intro tpb tt st note vel d h1 h2 htpb
    simp [processMsg, h1, h2, htpb, tick2second]
  · intro tpb tt st note vel d h1 h2 htpb
    simp [processMsg, h1, h2, htpb, tick2second]
  · norm_num [s1mid, load_midi, processTracks, tracksStep, processTrack, trackStep,
      processMsg, tick2second, classify, sortTimeline, List.insertionSort, List.orderedInsert,
      timeLE]
  · norm_num [s3mid, load_midi, processTracks, tracksStep, processTrack, trackStep,
      processMsg, tick2second, classify, sortTimeline, List.insertionSort, List.orderedInsert,
      timeLE]

/-- C5, witness: the formula conjunct applied to a concrete in-range
note-on at tick 0 with the default tempo. -/
theorem c5_conversion_formula_witness :
    24 ≤ 60 ∧ (60 : ℕ) ≤ 108 ∧ (480 : ℕ) ≠ 0 ∧
    processMsg 480 0 ⟨[], 500000, 0, 0⟩ (Msg.noteOn 60 64 0) =
      Except.ok (0 + 0,
        { queue := [] ++ [⟨((0 + 0 : ℕ) : ℚ) * ((500000 : ℚ) / 1000000) / (480 : ℚ), 60,
            classify true 64⟩],
          tempo := 500000, totalNotes := 0 + 1, validNotes := 0 + 1 }) :=
  ⟨by norm_num, by norm_num, by norm_num,
    c5_conversion_formula_amended.1 480 0 ⟨[], 500000, 0, 0⟩ 60 64 0
      (by norm_num) (by norm_num) (by norm_num)⟩

/-- Sink emissions distribute over concatenated traces. -/
theorem emitsOf_append (a b : List PlayAction) :
    emitsOf (a ++ b) = emitsOf a ++ emitsOf b := by
  simp [emitsOf]

/-- A conditional sleep contributes no sink emission. -/
theorem emitsOf_sleep_if (c : Prop) [Decidable c] (d : ℚ) :
    emitsOf (if c then [PlayAction.sleep d] else []) = [] := by
  split <;> rfl

/-- C6, confirmed.  The loop body computes delay = timestamp - last_time
and sleeps exactly when the delay is positive: a zero or negative delay
dispatches immediately, and two consecutive queued events with equal
timestamps are emitted back to back with no sleep between them. -/
theorem c6_only_positive_delay_sleeps :
    (∀ (st : PlayerState) (e : TimedNote) (rest : List TimedNote),
        st.queue = e :: rest → e.seconds - st.lastTime ≤ 0 →
        playStep st = ([PlayAction.emit e.note e.state], ⟨st.playing, rest, e.seconds⟩)) ∧
    (∀ (st : PlayerState) (e : TimedNote) (rest : List TimedNote),
        st.queue = e :: rest → 0 < e.seconds - st.lastTime →
        playStep st = ([PlayAction.sleep (e.seconds - st.lastTime),
          PlayAction.emit e.note e.state], ⟨st.playing, rest, e.seconds⟩)) ∧
    (∀ (p : Bool) (l : ℚ) (e₁ e₂ : TimedNote),
        e₁.seconds = e₂.seconds →
        (playRun 2 ⟨p, [e₁, e₂], l⟩).1 =
          (if 0 < e₁.seconds - l then [PlayAction.sleep (e₁.seconds - l)] else []) ++
            [PlayAction.emit e₁.note e₁.state, PlayAction.emit e₂.note e₂.state]) := by
  refine ⟨?_, ?_, ?_⟩
  · intro st e rest hq hd
    obtain ⟨p, q, lt⟩ := st
    simp only at hq
    subst hq
    simp [playStep, not_lt.mpr hd]
  · intro st e rest hq hd
    obtain ⟨p, q, lt⟩ := st
    simp only at hq
    subst hq
    simp [playStep, hd]
  · intro p l e₁ e₂ he
    simp [playRun, loopCond, playStep, ← he, sub_self]

/-- C6, witness: a negative delay (event time 0, last emitted time 1)
dispatches with no sleep, and two events both at time 2 starting from last
time 0 produce one sleep then two adjacent emissions. -/
theorem c6_only_positive_delay_witness :
    playStep ⟨true, [⟨0, 60, NoteState.on⟩], 1⟩ =
      ([PlayAction.emit 60 NoteState.on], ⟨true, [], 0⟩) ∧
    (playRun 2 ⟨true, [⟨2, 60, NoteState.on⟩, ⟨2, 62, NoteState.off⟩], 0⟩).1 =
      (if 0 < (⟨(2 : ℚ), 60, NoteState.on⟩ : TimedNote).seconds - 0 then
        [PlayAction.sleep ((⟨(2 : ℚ), 60, NoteState.on⟩ : TimedNote).seconds - 0)] else []) ++
        [PlayAction.emit 60 NoteState.on, PlayAction.emit 62 NoteState.off] :=
  ⟨c6_only_positive_delay_sleeps.1 ⟨true, [⟨0, 60, NoteState.on⟩], 1⟩ ⟨0, 60, NoteState.on⟩ []
      rfl (by norm_num),
    c6_only_positive_delay_sleeps.2.2 true 0 ⟨2, 60, NoteState.on⟩ ⟨2, 62, NoteState.off⟩ rfl⟩

/-- C7, counterexample.  Loading dupMid a second time on the same player
does not reproduce the first timeline: load_midi appends to the queue it
already holds, so the second load returns the one note twice. -/
theorem c7_second_load_differs_cex :
    (load_midi (load_midi [] dupMid).2 dupMid).2 ≠ (load_midi [] dupMid).2 := by
  have h1 : (load_midi [] dupMid).2 = [⟨0, 60, NoteState.on⟩] := by
    norm_num [dupMid, load_midi, processTracks, tracksStep, processTrack, trackStep,
      processMsg, tick2second, classify, sortTimeline, List.insertionSort, List.orderedInsert,
      timeLE]
  rw [h1]
  have h2 : (load_midi [⟨0, 60, NoteState.on⟩] dupMid).2 =
      [⟨0, 60, NoteState.on⟩, ⟨0, 60, NoteState.on⟩] := by
    norm_num [dupMid, load_midi, processTracks, tracksStep, processTrack, trackStep,
      processMsg, tick2second, classify, sortTimeline, List.insertionSort, List.orderedInsert,
      timeLE]
  rw [h2]
  simp

/-- C7, amended.  A second load of the same file on the same player
re-extracts the same events and appends them to the already sorted queue:
the timeline after the second call is a permutation of the first timeline
concatenated with itself, so it equals the first timeline only when nothing
was extracted.  Determinism holds per call: each call re-runs the same pure
extraction from tempo 500000. -/
theorem c7_second_load_doubles :
    ∀ (mid : MidiFile) (st : ExtractState),
      processTracks mid.ticks_per_beat ⟨[], 500000, 0, 0⟩ mid.tracks = Except.ok st →
      (load_midi (load_midi [] mid).2 mid).2.Perm
        ((load_midi [] mid).2 ++ (load_midi [] mid).2) := by
  intro mid st h
  have h1 : (load_midi [] mid).2 = sortTimeline st.queue := by
    simp [load_midi, h]
  have hpre : processTracks mid.ticks_per_beat ⟨sortTimeline st.queue, 500000, 0, 0⟩ mid.tracks
      = Except.ok (prependSt (sortTimeline st.queue) st) := by
    have hq : (⟨sortTimeline st.queue, 500000, 0, 0⟩ : ExtractState) =
        prependSt (sortTimeline st.queue) ⟨[], 500000, 0, 0⟩ := by
      simp [prependSt]
    rw [hq, processTracks_prepend, h]
    rfl
  have h2 : (load_midi (load_midi [] mid).2 mid).2 =
      sortTimeline (sortTimeline st.queue ++ st.queue) := by
    rw [h1]
    simp [load_midi, hpre, prependSt]
  rw [h2, h1]
  exact (List.perm_insertionSort timeLE _).trans
    (List.Perm.append_left (sortTimeline st.queue)
      (List.perm_insertionSort timeLE st.queue).symm)

/-- C7, witness at the one-note file dupMid. -/
theorem c7_second_load_doubles_witness :
    (load_midi (load_midi [] dupMid).2 dupMid).2.Perm
      ((load_midi [] dupMid).2 ++ (load_midi [] dupMid).2) := by
  have h : processTracks dupMid.ticks_per_beat ⟨[], 500000, 0, 0⟩ dupMid.tracks =
      Except.ok ⟨[⟨0, 60, NoteState.on⟩], 500000, 1, 1⟩ := by
    norm_num [dupMid, processTracks, tracksStep, processTrack, trackStep, processMsg,
      tick2second, classify]
  exact c7_second_load_doubles dupMid _ h

/-- C8, counterexample.  On failMid the note at tick 0 is appended and the
following set_tempo of 0 raises inside the loop; load_midi returns False
but the partially built timeline of one note survives in the queue, which
therefore differs from its state before the load ([]). -/
theorem c8_partial_timeline_retained_cex :
    load_midi [] failMid = (false, [⟨0, 60, NoteState.on⟩]) ∧
    ([⟨(0 : ℚ), 60, NoteState.on⟩] : List TimedNote) ≠ ([] : List TimedNote) := by
  refine ⟨?_, by simp⟩
  norm_num [failMid, load_midi, processTracks, tracksStep, processTrack, trackStep,
    processMsg, tick2second, classify]

/-- C8, amended.  A malformed input makes load_midi return False as a
whole; a decode-stage failure (file missing or mido unable to parse) leaves
the queue exactly as it was, but a failure raised mid-extraction (here a
corrupt tempo value of 0) keeps every event appended before the exception:
there is no rollback of the partial timeline. -/
theorem c8_failure_returns_false :
    (∀ (q : List TimedNote), load_midi_file q none = (false, q)) ∧
    (load_midi [] failMid).1 = false ∧
    load_midi [] failMid = (false, [⟨0, 60, NoteState.on⟩]) := by
  refine ⟨fun q => rfl, ?_, ?_⟩ <;>
    norm_num [failMid, load_midi, processTracks, tracksStep, processTrack, trackStep,
      processMsg, tick2second, classify]

/-- C9, counterexample.  With the stop flag already cleared (playing false)
and one event still queued, the loop condition still holds and the next
iteration emits the event to the sink: a completed stop request does not
prevent further emissions while undispatched events remain. -/
theorem c9_emission_after_stop_cex :
    loopCond ⟨false, [⟨0, 60, NoteState.on⟩], 0⟩ = true ∧
    (playRun 1 ⟨false, [⟨0, 60, NoteState.on⟩], 0⟩).1 = [PlayAction.emit 60 NoteState.on] := by
  refine ⟨rfl, ?_⟩
  norm_num [playRun, loopCond, playStep]

/-- C9, amended.  Clearing the stop flag does not drop the queue: the loop
keeps running while note_queue is non-empty, dispatches every remaining
event in order, and only then does its condition turn false and the thread
terminate.  Only further events are none once the queue has drained. -/
theorem c9_stop_drains_then_halts :
    ∀ (q : List TimedNote) (l : ℚ),
      emitsOf (playRun q.length ⟨false, q, l⟩).1 = q.map (fun e => (e.note, e.state)) ∧
      (playRun q.length ⟨false, q, l⟩).2.queue = [] ∧
      loopCond (playRun q.length ⟨false, q, l⟩).2 = false := by
  intro q
  induction q with
  | nil => intro l; exact ⟨rfl, rfl, rfl⟩
  | cons e q ih =>
      intro l
      obtain ⟨ih1, ih2, ih3⟩ := ih e.seconds
      simp only [List.length_cons, playRun, loopCond, List.isEmpty_cons, Bool.not_false,
        Bool.or_true, if_true, playStep]
      refine ⟨?_, ih2, ih3⟩
      rw [emitsOf_append, emitsOf_append, emitsOf_sleep_if, ih1]
      rfl
